import Mathlib

/-!
# Minecraft Speedrun Notifier — verified core

A shallow embedding of the notifier's core decision logic:

* the notification decision predicate `shouldNotifyMilestone`,
* the split resolver `getSplitMs` / `getLiveSplitMs` / `getSplitWithLiveFallback`,
* the configuration merger `buildMilestones`,
* the quiet-hours evaluator `parseHHMMToMinutes` / `isTimeInQuietRange` / `inQuietHours`,
* the dedupe store `markIfNew` and the alert path `sendNotify` / `alertOnce`.

JavaScript strings are modelled as Lean `String`s, but all string processing
is implemented structurally over `List Char` so that every definition is
kernel-executable. JavaScript numbers appearing in the modelled code paths
are integral (milliseconds, seconds, minutes), so they are modelled as `Int`
(or `Nat` where the source can only produce non-negative values); `Math.floor`
of a division by a positive constant is `Int.fdiv`. Absent values
(`null`/`undefined`) are modelled with `Option`.
-/

namespace RunAlert

/-! ## JavaScript string primitives (structural, kernel-executable) -/

/-- Splits a character list at every occurrence of the separator character,
mirroring `String.prototype.split` with a one-character separator:
`"".split(sep) = [""]`, and separators at the ends produce empty fields. -/
def splitOnChar (sep : Char) : List Char → List (List Char)
  | [] => [[]]
  | c :: rest =>
    match splitOnChar sep rest with
    | [] => [[]]
    | h :: t => if c = sep then [] :: h :: t else (c :: h) :: t

/-- `s.split(sep)` for a one-character separator, as Lean strings. -/
def jsSplit (s : String) (sep : Char) : List String :=
  (splitOnChar sep s.data).map String.mk

/-- The whitespace characters relevant to `String.prototype.trim` in the
modelled code paths (configuration span strings). -/
def isJsWhitespace (c : Char) : Bool :=
  c == ' ' || c == '\t' || c == '\n' || c == '\r'

/-- `s.trim()`: strip leading and trailing whitespace. -/
def jsTrim (s : String) : String :=
  String.mk (((s.data.dropWhile isJsWhitespace).reverse.dropWhile isJsWhitespace).reverse)

/-- `s.toUpperCase()` on the ASCII strings occurring in the modelled code. -/
def jsToUpper (s : String) : String :=
  String.mk (s.data.map Char.toUpper)

/-- `s.toLowerCase()` on the ASCII strings occurring in the modelled code. -/
def jsToLower (s : String) : String :=
  String.mk (s.data.map Char.toLower)

/-- `Number("…digits…")` for a non-empty all-digit string. -/
def digitsToNat (l : List Char) : Nat :=
  l.foldl (fun acc c => acc * 10 + (c.toNat - 48)) 0

/-! ## Quiet hours (`parseHHMMToMinutes`, `isTimeInQuietRange`, `inQuietHours`)

Source: `run_watcher.js`. `now` is observed only through
`now.getHours() * 60 + now.getMinutes()`, so the current time is modelled as
`nowMinutes : Nat`, minutes since midnight. -/

/-- Parse `"HH:MM"` (24-hour time, regex `^(\d{1,2}):(\d{2})$` after `trim`)
into minutes since midnight; `none` if the string is malformed or the
hour/minute is out of range. -/
def parseHHMMToMinutes (s : String) : Option Nat :=
  let raw := jsTrim s
  match jsSplit raw ':' with
  | [h, m] =>
    if 1 ≤ h.data.length ∧ h.data.length ≤ 2 ∧ h.data.all Char.isDigit
        ∧ m.data.length = 2 ∧ m.data.all Char.isDigit then
      let hh := digitsToNat h.data
      let mm := digitsToNat m.data
      if hh > 23 then none
      else if mm > 59 then none
      else some (hh * 60 + mm)
    else none
  | _ => none

/-- Returns true if `nowMinutes` falls within the range `"HH:MM-HH:MM"`;
start inclusive, end exclusive, with wrap-around across midnight when the
start is later than the end. Malformed ranges yield `false`. -/
def isTimeInQuietRange (range : String) (nowMinutes : Nat) : Bool :=
  match jsSplit range '-' with
  | [p1, p2] =>
    match parseHHMMToMinutes p1, parseHHMMToMinutes p2 with
    | some a, some b =>
      if a < b then decide (a ≤ nowMinutes ∧ nowMinutes < b)
      else decide (nowMinutes ≥ a ∨ nowMinutes < b)
    | _, _ => false
  | _ => false

/-- The `quietHours` configuration value: absent (`undefined`/`null`, falsy),
a single legacy `"HH:MM-HH:MM"` string, or a list of span strings. -/
inductive QuietHoursCfg where
  | missing
  | single (s : String)
  | multi (l : List String)
deriving DecidableEq, Repr

/-- Returns true if the current time is inside any configured quiet-hours
range. `overrideQuiet` models the module-level `OVERRIDE_QUIET` flag
(`--no-quiet`), which short-circuits the evaluation to `false`. -/
def inQuietHours (quietHours : QuietHoursCfg) (overrideQuiet : Bool)
    (nowMinutes : Nat) : Bool :=
  if overrideQuiet then false
  else
    match quietHours with
    | .missing => false
    | .single s => isTimeInQuietRange s nowMinutes
    | .multi l => l.any (fun r => isTimeInQuietRange r nowMinutes)

/-- Specification-side reading of one quiet-hours span: the span string is
well-formed (`"HH:MM-HH:MM"` with in-range fields) and the current time
falls inside it under the start-inclusive / end-exclusive / wrap-around
semantics. -/
def spanMatches (r : String) (nowMinutes : Nat) : Prop :=
  ∃ p1 p2 a b, jsSplit r '-' = [p1, p2]
    ∧ parseHHMMToMinutes p1 = some a
    ∧ parseHHMMToMinutes p2 = some b
    ∧ (if a < b then a ≤ nowMinutes ∧ nowMinutes < b
       else a ≤ nowMinutes ∨ nowMinutes < b)

/-! ## Notification decision predicate (`shouldNotifyMilestone`)

Source: `run_watcher.js`. The destructuring defaults are
`enabled = true`, `thresholdSec = 999999`, `forceSend = false`; an absent
`thresholdSec` is modelled as `none` and the default is substituted inside
the function body, matching the JavaScript parameter default. -/

/-- Decides whether a resolved split should trigger a notification. -/
def shouldNotifyMilestone (ms : Option Int) (enabled : Bool)
    (thresholdSec : Option Int) (forceSend : Bool) : Bool :=
  let threshold := thresholdSec.getD 999999
  if !enabled then false
  else
    match ms with
    | none => false
    | some m =>
      let sec := Int.fdiv m 1000
      forceSend || decide (sec < threshold)

/-! ## Split resolver (`paceman/client.js` and `run_watcher.js`)

The paceman `getWorld` payload's `data` object is a JSON object whose
values the resolver probes dynamically; it is modelled as an association
list from key strings to JSON values. -/

/-- A JSON/JavaScript value as seen by the split resolver: `null`, a finite
number (integral in all modelled payloads), a non-finite number
(`NaN`/`±Infinity`, rejected by `Number.isFinite`), a string, or any other
value (booleans, objects, arrays — all rejected by `Number.isFinite`). -/
inductive JVal where
  | null
  | num (n : Int)
  | nanOrInf
  | str (s : String)
  | other
deriving DecidableEq, Repr

/-- A JSON object, as an association list (JS object keys are unique). -/
abbrev JObj := List (String × JVal)

/-- The paceman `getWorld` payload: `{ data: {...}, isLive: bool, ... }`.
A payload whose `data` field is absent behaves as `data = {}` via
`world?.data || {}`, which coincides with `data = []` here. -/
structure World where
  data : JObj
  isLive : Bool
deriving Repr

/-- `part[0]?.toUpperCase() + part.slice(1)`: capitalize the first character.
On an empty part, `part[0]` is `undefined` and string concatenation with
`undefined` yields the literal text `"undefined"`. -/
def jsCapitalizePart (part : String) : String :=
  match part.data with
  | [] => "undefined"
  | c :: rest => String.mk (c.toUpper :: rest)

/-- `toCamelCase` from `paceman/client.js`: split on `'_'`, keep the head,
capitalize and concatenate the remaining parts. A string without an
underscore is returned unchanged. -/
def toCamelCase (s : String) : String :=
  match jsSplit s '_' with
  | [] => s
  | [_] => s
  | head :: rest => head ++ String.join (rest.map jsCapitalizePart)

/-- The candidate-probing loop of `getSplitMs`: return the first candidate
that is a finite, non-negative number; `null` otherwise. -/
def firstFiniteNonneg : List (Option JVal) → Option Int
  | [] => none
  | v :: rest =>
    match v with
    | some (JVal.num n) => if 0 ≤ n then some n else firstFiniteNonneg rest
    | _ => firstFiniteNonneg rest

/-- `getSplitMs(world, base, clock)`: read the milestone's split
milliseconds out of the snapshot. IGT values live under the bare key (or
its `Igt`-suffixed / camel-cased variants); RTA values live under the
`Rta`-suffixed variants. Missing, `null`, non-finite, or negative values
resolve to `none`. -/
def getSplitMs (world : Option World) (base : String) (clock : String) :
    Option Int :=
  let c := jsToUpper clock
  let camelBase := toCamelCase base
  let data : JObj := match world with | some w => w.data | none => []
  if c = "IGT" then
    firstFiniteNonneg [data.lookup base, data.lookup (base ++ "Igt"),
      data.lookup camelBase, data.lookup (camelBase ++ "Igt")]
  else
    firstFiniteNonneg [data.lookup (base ++ "Rta"),
      data.lookup (camelBase ++ "Rta")]

/-- The candidate keys `getSplitMs` probes in the snapshot's `data` object
for a milestone under a clock, in probe order: the bare, `Igt`-suffixed,
camel-cased, and camel-cased-`Igt` variants for IGT, and the two
`Rta`-suffixed variants otherwise. -/
def splitCandidateKeys (base clock : String) : List String :=
  if jsToUpper clock = "IGT" then
    [base, base ++ "Igt", toCamelCase base, toCamelCase base ++ "Igt"]
  else
    [base ++ "Rta", toCamelCase base ++ "Rta"]

/-- An entry of a live run's `eventList`: a JSON object (holding `eventId`,
`igt`, `rta`, …). -/
abbrev LiveEvent := JObj

/-- A live run from the `liveruns` feed, restricted to the field the split
resolver reads (`eventList`, possibly absent). -/
structure LiveRun where
  eventList : Option (List LiveEvent)
deriving Repr

/-- `LIVE_EVENT_BY_MILESTONE`: milestone key → live-feed event identifier. -/
def LIVE_EVENT_BY_MILESTONE : List (String × String) :=
  [("nether", "rsg.enter_nether"),
   ("bastion", "rsg.enter_bastion"),
   ("fortress", "rsg.enter_fortress"),
   ("first_portal", "rsg.first_portal"),
   ("second_portal", "rsg.second_portal"),
   ("stronghold", "rsg.enter_stronghold"),
   ("end", "rsg.enter_end"),
   ("finish", "rsg.credits")]

/-- `getLiveSplitMs(liveRun, milestone, clock)`: find the milestone's event
in the live feed and read the clock's field (`igt`/`rta`, lower-cased key);
only finite, non-negative numbers count. -/
def getLiveSplitMs (liveRun : Option LiveRun) (milestone : String)
    (clock : String) : Option Int :=
  match liveRun with
  | none => none
  | some run =>
    match LIVE_EVENT_BY_MILESTONE.lookup milestone with
    | none => none
    | some eventId =>
      match (run.eventList.getD []).find?
          (fun e => decide (e.lookup "eventId" = some (JVal.str eventId))) with
      | none => none
      | some event =>
        let key := jsToLower clock
        match event.lookup key with
        | some (JVal.num n) => if 0 ≤ n then some n else none
        | _ => none

/-- The result record of `getSplitWithLiveFallback`:
`{ ms, usedClock, source }` with `source ∈ {"world", "live"}` when present. -/
structure SplitResult where
  ms : Option Int
  usedClock : String
  source : Option String
deriving DecidableEq, Repr

/-- `getSplitWithLiveFallback`: resolve a split by trying, in order, the
snapshot under the primary clock, the snapshot under the fallback clock,
the live feed under the primary clock, and the live feed under the
fallback clock. -/
def getSplitWithLiveFallback (world : Option World) (liveRun : Option LiveRun)
    (milestone primaryClock fallbackClock : String) : SplitResult :=
  match getSplitMs world milestone primaryClock with
  | some primary => ⟨some primary, primaryClock, some "world"⟩
  | none =>
    match getSplitMs world milestone fallbackClock with
    | some fallback => ⟨some fallback, fallbackClock, some "world"⟩
    | none =>
      match getLiveSplitMs liveRun milestone primaryClock with
      | some livePrimary => ⟨some livePrimary, primaryClock, some "live"⟩
      | none =>
        match getLiveSplitMs liveRun milestone fallbackClock with
        | some liveFallback => ⟨some liveFallback, fallbackClock, some "live"⟩
        | none => ⟨none, primaryClock, none⟩

/-- Specification-side resolver: scan an ordered candidate list
`(value?, clock, source)` and return the first present value, or the
absent result under the default clock. Used to state the strict
resolution-order claim. -/
def resolveFirstPresent (candidates : List (Option Int × String × String))
    (defaultClock : String) : SplitResult :=
  match candidates with
  | [] => ⟨none, defaultClock, none⟩
  | (v, clk, src) :: rest =>
    match v with
    | some n => ⟨some n, clk, some src⟩
    | none => resolveFirstPresent rest defaultClock

/-! ## Milestone configuration merger (`buildMilestones`) -/

/-- A milestone rule `{ thresholdSec, enabled }`; each field may be absent. -/
structure MilestoneRule where
  thresholdSec : Option Int
  enabled : Option Bool
deriving DecidableEq, Repr

/-- The empty rule object `{}`. -/
def emptyRule : MilestoneRule := ⟨none, none⟩

/-- The object spread `{ ...base, ...override }` at rule granularity: a
field present in the override wins, an absent field falls back to the
base. -/
def mergeRule (base override : MilestoneRule) : MilestoneRule :=
  { thresholdSec :=
      match override.thresholdSec with
      | some t => some t
      | none => base.thresholdSec,
    enabled :=
      match override.enabled with
      | some e => some e
      | none => base.enabled }

/-- The configuration document, restricted to the fields `buildMilestones`
and the alert path read. Absent fields are `none`. -/
structure Config where
  streamers : Option (List String)
  defaultMilestones : Option (List (String × MilestoneRule))
  profiles : Option (List (String × List (String × MilestoneRule)))
  quietHours : QuietHoursCfg
deriving Repr

/-- `cfg.profiles?.[name] || {}`. -/
def profileFor (cfg : Config) (name : String) : List (String × MilestoneRule) :=
  ((cfg.profiles.getD []).lookup name).getD []

/-- First-occurrence deduplication with an accumulator, mirroring the
iteration order of `new Set([...a, ...b])`. -/
def dedupKeysAux (acc : List String) : List String → List String
  | [] => acc
  | k :: rest =>
    if k ∈ acc then dedupKeysAux acc rest
    else dedupKeysAux (acc ++ [k]) rest

/-- Key set of `new Set(l)` in insertion order. -/
def dedupKeys (l : List String) : List String :=
  dedupKeysAux [] l

/-- The result of `buildMilestones`. -/
structure BuildResult where
  STREAMERS : List String
  DEFAULT_MILESTONES : List (String × MilestoneRule)
  STREAMER_MILESTONES : List (String × List (String × MilestoneRule))
deriving Repr

/-- `cfg.streamers?.length ? cfg.streamers : ["xQcOW"]`: an absent or empty
streamer list falls back to the hardcoded `["xQcOW"]`. -/
def streamersOf (cfg : Config) : List String :=
  match cfg.streamers with
  | some l => if l.isEmpty then ["xQcOW"] else l
  | none => ["xQcOW"]

/-- `cfg.defaultMilestones || { nether: { thresholdSec: 240, enabled: true } }`. -/
def defaultMilestonesOf (cfg : Config) : List (String × MilestoneRule) :=
  cfg.defaultMilestones.getD [("nether", ⟨some 240, some true⟩)]

/-- One streamer's merged rule set: over the key union of the defaults and
the profile (in `new Set` insertion order), merge each rule as
`{ ...default, ...override }`, with `{}` for a side missing the key. -/
def mergedFor (defaults profile : List (String × MilestoneRule)) :
    List (String × MilestoneRule) :=
  (dedupKeys (defaults.map Prod.fst ++ profile.map Prod.fst)).map
    (fun milestone =>
      (milestone,
        mergeRule ((defaults.lookup milestone).getD emptyRule)
          ((profile.lookup milestone).getD emptyRule)))

/-- `buildMilestones(cfg)`: apply the hardcoded fallbacks for a missing or
empty streamer list and missing default milestones, then, for every
streamer, merge the defaults with the streamer's profile over the union of
their keys. -/
def buildMilestones (cfg : Config) : BuildResult :=
  ⟨streamersOf cfg, defaultMilestonesOf cfg,
   (streamersOf cfg).map (fun name =>
     (name, mergedFor (defaultMilestonesOf cfg) (profileFor cfg name)))⟩

/-! ## Dedupe store (`store/dedupe_store.js`) -/

/-- `Set.prototype.add`: insert a key if not already present (the seen set
is modelled as a duplicate-free list in insertion order). -/
def setAdd (s : List String) (k : String) : List String :=
  if k ∈ s then s else s ++ [k]

/-- `markIfNew(keys, seen)`: if any provided key was already seen, report
`false` and leave the store unchanged; otherwise record every provided key
and report `true`. (The JS signature also accepts a single string, which
behaves as the one-element list.) -/
def markIfNew (keys : List String) (seen : List String) :
    Bool × List String :=
  if keys.any (fun k => decide (k ∈ seen)) then (false, seen)
  else (true, keys.foldl setAdd seen)

/-! ## Alert path (`sendNotify`, `alertOnce`)

`sendNotify` and `alertOnce` are async functions whose effects on the
modelled state are the dedupe-store update and the delivery status; the
notification title/message construction and the actual channel send are
delivery-side formatting that does not feed back into any decision, so the
embedding returns the status and the new store. The configuration and the
current wall-clock minute, read inside `sendNotify` via `loadCfg()` and
`new Date()`, are passed explicitly. -/

/-- The status string returned by `sendNotify`. -/
inductive NotifyStatus where
  | dryRun
  | quiet
  | sent
deriving DecidableEq, Repr

/-- `sendNotify`: dry-run short-circuits; otherwise quiet hours suppress
delivery; otherwise the notification is sent. -/
def sendNotify (dryRun : Bool) (overrideQuiet : Bool) (cfg : Config)
    (nowMinutes : Nat) : NotifyStatus :=
  if dryRun then .dryRun
  else if inQuietHours cfg.quietHours overrideQuiet nowMinutes
      && !overrideQuiet then .quiet
  else .sent

/-- The observable outcome of one `alertOnce` call: the delivery status
(`none` when the call returned early because the dedupe store had already
seen the alert) and the dedupe store afterwards. -/
structure AlertResult where
  status : Option NotifyStatus
  seen : List String
deriving DecidableEq, Repr

/-- The coarse dedupe key `milestone|streamer|runId`. -/
def alertKey (milestone streamer runId : String) : String :=
  milestone ++ "|" ++ streamer ++ "|" ++ runId

/-- The legacy dedupe key
`milestone|usedClock|streamer|runId|sec`. -/
def alertLegacyKey (milestone usedClock streamer runId : String)
    (splitMs : Int) : String :=
  milestone ++ "|" ++ usedClock ++ "|" ++ streamer ++ "|" ++ runId ++ "|"
    ++ toString (Int.fdiv splitMs 1000)

/-- `alertOnce`: check-and-record both dedupe keys first; only when they
were new, evaluate delivery (dry-run / quiet hours / send). -/
def alertOnce (dryRun : Bool) (overrideQuiet : Bool) (cfg : Config)
    (nowMinutes : Nat) (streamer runId milestone usedClock : String)
    (splitMs : Int) (seen : List String) : AlertResult :=
  if (markIfNew [alertKey milestone streamer runId,
      alertLegacyKey milestone usedClock streamer runId splitMs] seen).1 then
    ⟨some (sendNotify dryRun overrideQuiet cfg nowMinutes),
     (markIfNew [alertKey milestone streamer runId,
       alertLegacyKey milestone usedClock streamer runId splitMs] seen).2⟩
  else ⟨none, seen⟩

/-! ## Helper lemmas -/

theorem lookup_map_self {α β : Type} [BEq α] [LawfulBEq α] [DecidableEq α]
    (l : List α) (f : α → β) (a : α) :
    (l.map (fun x => (x, f x))).lookup a
      = if a ∈ l then some (f a) else none := by
  induction l with
  | nil => simp [List.lookup]
  | cons x xs ih =>
    simp only [List.map_cons, List.lookup]
    by_cases hax : a = x
    · subst hax
      simp
    · have hbeq : (a == x) = false := by simp [hax]
      simp [hbeq, ih, hax]

theorem lookup_isSome_iff {α β : Type} [BEq α] [LawfulBEq α]
    (l : List (α × β)) (a : α) :
    (l.lookup a).isSome = true ↔ a ∈ l.map Prod.fst := by
  induction l with
  | nil => simp [List.lookup]
  | cons p rest ih =>
    obtain ⟨k, v⟩ := p
    simp only [List.lookup, List.map_cons, List.mem_cons]
    cases hbeq : (a == k) with
    | true =>
      have : a = k := eq_of_beq hbeq
      simp [this]
    | false =>
      have : a ≠ k := by simpa using hbeq
      simp [this, ih]

theorem mem_dedupKeysAux (l : List String) :
    ∀ (acc : List String) (k : String),
      k ∈ dedupKeysAux acc l ↔ k ∈ acc ∨ k ∈ l := by
  induction l with
  | nil => intro acc k; simp [dedupKeysAux]
  | cons x xs ih =>
    intro acc k
    simp only [dedupKeysAux]
    by_cases hx : x ∈ acc
    · rw [if_pos hx, ih]
      constructor
      · rintro (h | h)
        · exact Or.inl h
        · exact Or.inr (List.mem_cons_of_mem _ h)
      · rintro (h | h)
        · exact Or.inl h
        · rcases List.mem_cons.mp h with h1 | h1
          · exact Or.inl (h1 ▸ hx)
          · exact Or.inr h1
    · rw [if_neg hx, ih]
      simp only [List.mem_append, List.mem_cons, List.mem_singleton]
      tauto

theorem mem_dedupKeys (l : List String) (k : String) :
    k ∈ dedupKeys l ↔ k ∈ l := by
  unfold dedupKeys
  rw [mem_dedupKeysAux]
  simp

theorem mem_foldl_setAdd (keys : List String) :
    ∀ (seen : List String) (k : String),
      k ∈ keys.foldl setAdd seen ↔ k ∈ seen ∨ k ∈ keys := by
  induction keys with
  | nil => intro seen k; simp
  | cons x xs ih =>
    intro seen k
    simp only [List.foldl_cons]
    rw [ih]
    unfold setAdd
    by_cases hx : x ∈ seen
    · rw [if_pos hx]
      constructor
      · rintro (h | h)
        · exact Or.inl h
        · exact Or.inr (List.mem_cons_of_mem _ h)
      · rintro (h | h)
        · exact Or.inl h
        · rcases List.mem_cons.mp h with h1 | h1
          · exact Or.inl (h1 ▸ hx)
          · exact Or.inr h1
    · rw [if_neg hx]
      simp only [List.mem_append, List.mem_cons, List.mem_singleton]
      tauto

theorem mergedFor_lookup (defaults profile : List (String × MilestoneRule))
    (key : String) :
    (mergedFor defaults profile).lookup key
      = if key ∈ defaults.map Prod.fst ∨ key ∈ profile.map Prod.fst then
          some (mergeRule ((defaults.lookup key).getD emptyRule)
            ((profile.lookup key).getD emptyRule))
        else none := by
  unfold mergedFor
  rw [lookup_map_self]
  by_cases h : key ∈ defaults.map Prod.fst ∨ key ∈ profile.map Prod.fst
  · rw [if_pos (by rw [mem_dedupKeys, List.mem_append]; exact h), if_pos h]
  · rw [if_neg (by rw [mem_dedupKeys, List.mem_append]; exact h), if_neg h]

theorem markIfNew_eq_cases (keys seen : List String) :
    markIfNew keys seen = (false, seen)
      ∨ markIfNew keys seen = (true, keys.foldl setAdd seen) := by
  unfold markIfNew
  split
  · exact Or.inl rfl
  · exact Or.inr rfl

theorem markIfNew_false_of_mem (keys seen : List String) (k : String)
    (hk : k ∈ keys) (hseen : k ∈ seen) :
    markIfNew keys seen = (false, seen) := by
  unfold markIfNew
  rw [if_pos (List.any_eq_true.mpr ⟨k, hk, decide_eq_true hseen⟩)]

theorem isTimeInQuietRange_eq_true_iff (r : String) (cur : Nat) :
    isTimeInQuietRange r cur = true ↔ spanMatches r cur := by
  unfold isTimeInQuietRange spanMatches
  rcases hsplit : jsSplit r '-' with _ | ⟨p1, _ | ⟨p2, _ | ⟨p3, rest⟩⟩⟩
  · simp
  · simp
  · rcases ha : parseHHMMToMinutes p1 with _ | a
    · simp [ha]
    · rcases hb : parseHHMMToMinutes p2 with _ | b
      · simp [ha, hb]
      · simp only [ha, hb, Option.some.injEq, List.cons.injEq, and_true]
        constructor
        · intro h
          refine ⟨p1, p2, a, b, ⟨rfl, rfl⟩, ha, hb, ?_⟩
          by_cases hab : a < b
          · rw [if_pos hab] at h ⊢
            exact of_decide_eq_true h
          · rw [if_neg hab] at h ⊢
            exact of_decide_eq_true h
        · rintro ⟨q1, q2, a', b', ⟨rfl, rfl⟩, ha', hb', h⟩
          rw [ha] at ha'
          rw [hb] at hb'
          cases ha'
          cases hb'
          by_cases hab : a < b
          · rw [if_pos hab] at h ⊢
            exact decide_eq_true h
          · rw [if_neg hab] at h ⊢
            exact decide_eq_true h
  · simp

theorem firstFiniteNonneg_of_invalid (cands : List (Option JVal))
    (h : ∀ c ∈ cands, c = none ∨ c = some JVal.null) :
    firstFiniteNonneg cands = none := by
  induction cands with
  | nil => rfl
  | cons c rest ih =>
    rcases h c (List.mem_cons_self c rest) with hc | hc <;>
      · subst hc
        simp only [firstFiniteNonneg]
        exact ih (fun x hx => h x (List.mem_cons_of_mem _ hx))

theorem firstFiniteNonneg_nonneg (cands : List (Option JVal)) (v : Int)
    (h : firstFiniteNonneg cands = some v) : 0 ≤ v := by
  induction cands with
  | nil => simp [firstFiniteNonneg] at h
  | cons c rest ih =>
    rcases c with _ | jc
    · exact ih h
    · rcases jc with _ | n | _ | s | _
      · exact ih h
      · simp only [firstFiniteNonneg] at h
        by_cases hn : 0 ≤ n
        · rw [if_pos hn] at h
          cases h
          exact hn
        · rw [if_neg hn] at h
          exact ih h
      · exact ih h
      · exact ih h
      · exact ih h

/-! ## Claim theorems -/

/-- C1: with `thresholdSec` present, `shouldNotifyMilestone` returns false
when disabled (even under `forceSend`), false when the split is absent, and
otherwise, with `sec = floor(ms / 1000)`, true under `forceSend` and
otherwise true exactly when `sec` is strictly below the threshold (so a
split exactly at the threshold does not notify). -/
theorem shouldNotify_threshold_present_semantics (ms : Option Int)
    (enabled forceSend : Bool) (t : Int) :
    (enabled = false →
      shouldNotifyMilestone ms enabled (some t) forceSend = false) ∧
    (ms = none →
      shouldNotifyMilestone ms enabled (some t) forceSend = false) ∧
    (∀ m, ms = some m → enabled = true →
      (forceSend = true →
        shouldNotifyMilestone ms enabled (some t) forceSend = true) ∧
      (forceSend = false →
        (shouldNotifyMilestone ms enabled (some t) forceSend = true
          ↔ Int.fdiv m 1000 < t)) ∧
      (forceSend = false → Int.fdiv m 1000 = t →
        shouldNotifyMilestone ms enabled (some t) forceSend = false)) := by
  refine ⟨?_, ?_, ?_⟩
  · rintro rfl
    simp [shouldNotifyMilestone]
  · rintro rfl
    simp [shouldNotifyMilestone]
  · rintro m rfl rfl
    refine ⟨?_, ?_, ?_⟩
    · rintro rfl
      simp [shouldNotifyMilestone]
    · rintro rfl
      simp [shouldNotifyMilestone]
    · rintro rfl hsec
      simp [shouldNotifyMilestone, hsec]

/-- C1 witness: a 179.852s nether split against a 240s threshold notifies. -/
theorem shouldNotify_threshold_present_semantics_witness :
    shouldNotifyMilestone (some 179852) true (some 240) false = true := by
  have h := (shouldNotify_threshold_present_semantics (some 179852) true false
    240).2.2 179852 rfl rfl
  exact (h.2.1 rfl).mpr (by decide)

/-- C2 counterexample: with `thresholdSec` absent, a present 1-second split,
and `forceSend` false, the predicate returns `true`, not `false` — the
absent threshold does not behave as "never notify on this path". -/
theorem absent_threshold_counterexample :
    shouldNotifyMilestone (some 1000) true none false = true := by decide

/-- C2 amended: an absent `thresholdSec` defaults to the sentinel `999999`
seconds, so with the split present, the milestone enabled, and `forceSend`
false, the result is true exactly when `floor(ms / 1000) < 999999` — the
absent threshold acts as an implicit very large cutoff that lets every
split under 999999 seconds through, not as "never notify". -/
theorem absent_threshold_sentinel_semantics (m : Int) :
    shouldNotifyMilestone (some m) true none false
      = decide (Int.fdiv m 1000 < 999999) := by
  simp [shouldNotifyMilestone]

/-- C6: for a well-formed span, `isTimeInQuietRange` is start-inclusive and
end-exclusive at minute granularity: with `start < end` it holds iff
`start ≤ now < end`; with `start > end` (wrap-around) iff `now ≥ start` or
`now < end`; and with `start = end` it holds at every time of day. -/
theorem quiet_range_single_span_semantics (range s1 s2 : String)
    (a b cur : Nat)
    (hsplit : jsSplit range '-' = [s1, s2])
    (ha : parseHHMMToMinutes s1 = some a)
    (hb : parseHHMMToMinutes s2 = some b) :
    (a < b → (isTimeInQuietRange range cur = true ↔ (a ≤ cur ∧ cur < b))) ∧
    (b < a → (isTimeInQuietRange range cur = true ↔ (a ≤ cur ∨ cur < b))) ∧
    (a = b → isTimeInQuietRange range cur = true) := by
  unfold isTimeInQuietRange
  rw [hsplit]
  simp only [ha, hb]
  refine ⟨?_, ?_, ?_⟩
  · intro hab
    rw [if_pos hab]
    simp
  · intro hab
    rw [if_neg (by omega)]
    simp only [decide_eq_true_eq, ge_iff_le]
  · intro hab
    subst hab
    rw [if_neg (lt_irrefl a)]
    simp only [decide_eq_true_eq, ge_iff_le]
    omega

/-- C6 witness: the wrap-around span `"23:00-02:00"` is quiet at 23:30. -/
theorem quiet_range_single_span_semantics_witness :
    isTimeInQuietRange "23:00-02:00" 1410 = true :=
  ((quiet_range_single_span_semantics "23:00-02:00" "23:00" "02:00"
      1380 120 1410 (by decide) (by decide) (by decide)).2.1
    (by decide)).mpr (by decide)

/-- C7: `inQuietHours` over a span list (quiet-override off) is true exactly
when some span in the list is well-formed and contains the current time;
malformed spans are total, error-free, and contribute false, so one bad
entry cannot suppress the evaluation of the others. -/
theorem quiet_hours_multi_span_semantics (l : List String) (cur : Nat) :
    inQuietHours (.multi l) false cur = true
      ↔ ∃ r ∈ l, spanMatches r cur := by
  unfold inQuietHours
  simp only [Bool.false_eq_true, if_false, List.any_eq_true,
    isTimeInQuietRange_eq_true_iff]

/-- C10: `buildMilestones` silently substitutes hardcoded fallbacks — an
absent or empty streamer list becomes `["xQcOW"]`, and absent default
milestones become `{ nether: { thresholdSec: 240, enabled: true } }`. -/
theorem buildMilestones_hardcoded_fallbacks (cfg : Config) :
    ((cfg.streamers = none ∨ cfg.streamers = some []) →
      (buildMilestones cfg).STREAMERS = ["xQcOW"]) ∧
    (cfg.defaultMilestones = none →
      (buildMilestones cfg).DEFAULT_MILESTONES
        = [("nether", ⟨some 240, some true⟩)]) := by
  constructor
  · rintro (h | h) <;> simp [buildMilestones, streamersOf, h]
  · intro h
    simp [buildMilestones, defaultMilestonesOf, h]

/-- C10 witness: the empty configuration gets both fallbacks. -/
theorem buildMilestones_hardcoded_fallbacks_witness :
    (buildMilestones ⟨none, none, none, .missing⟩).STREAMERS = ["xQcOW"]
    ∧ (buildMilestones ⟨none, none, none, .missing⟩).DEFAULT_MILESTONES
        = [("nether", ⟨some 240, some true⟩)] :=
  ⟨(buildMilestones_hardcoded_fallbacks ⟨none, none, none, .missing⟩).1
      (Or.inl rfl),
   (buildMilestones_hardcoded_fallbacks ⟨none, none, none, .missing⟩).2 rfl⟩

/-- C3: the split resolver returns the first present value in the strict
order snapshot-primary, snapshot-fallback, live-primary, live-fallback
(with the matching clock and `"world"`/`"live"` source tag, and the absent
result otherwise); and whenever the snapshot has a value under the primary
clock, that value is returned with source `"world"` and the result does
not depend on the live feed at all. -/
theorem split_resolution_order (world : Option World)
    (liveRun : Option LiveRun) (milestone primaryClock fallbackClock : String)
    (_hclocks : primaryClock ≠ fallbackClock) :
    getSplitWithLiveFallback world liveRun milestone primaryClock fallbackClock
      = resolveFirstPresent
          [(getSplitMs world milestone primaryClock, primaryClock, "world"),
           (getSplitMs world milestone fallbackClock, fallbackClock, "world"),
           (getLiveSplitMs liveRun milestone primaryClock, primaryClock,
             "live"),
           (getLiveSplitMs liveRun milestone fallbackClock, fallbackClock,
             "live")]
          primaryClock
    ∧ (∀ v, getSplitMs world milestone primaryClock = some v →
        ∀ liveRun' : Option LiveRun,
          getSplitWithLiveFallback world liveRun' milestone primaryClock
              fallbackClock
            = ⟨some v, primaryClock, some "world"⟩) := by
  constructor
  · unfold getSplitWithLiveFallback
    rcases h1 : getSplitMs world milestone primaryClock with _ | v1
    · rcases h2 : getSplitMs world milestone fallbackClock with _ | v2
      · rcases h3 : getLiveSplitMs liveRun milestone primaryClock with _ | v3
        · rcases h4 : getLiveSplitMs liveRun milestone fallbackClock
              with _ | v4 <;>
            simp [resolveFirstPresent]
        · simp [resolveFirstPresent]
      · simp [resolveFirstPresent]
    · simp [resolveFirstPresent]
  · intro v hv liveRun'
    unfold getSplitWithLiveFallback
    rw [hv]

/-- C3 witness: a snapshot with an IGT nether split resolves from the
snapshot under the primary clock, ignoring the live feed. -/
theorem split_resolution_order_witness :
    getSplitWithLiveFallback (some ⟨[("nether", JVal.num 179852)], true⟩)
        (some ⟨some [[("eventId", JVal.str "rsg.enter_nether"),
          ("igt", JVal.num 5)]]⟩) "nether" "IGT" "RTA"
      = ⟨some 179852, "IGT", some "world"⟩ :=
  (split_resolution_order (some ⟨[("nether", JVal.num 179852)], true⟩)
      none "nether" "IGT" "RTA" (by decide)).2 179852 (by decide)
    (some ⟨some [[("eventId", JVal.str "rsg.enter_nether"),
      ("igt", JVal.num 5)]]⟩)

/-- C4 counterexample: a snapshot that stores the zero sentinel `0` for
`nether` does not resolve to absent — `getSplitMs` returns the present
zero-elapsed-time sample `0`. -/
theorem zero_sentinel_counterexample :
    getSplitMs (some ⟨[("nether", JVal.num 0)], true⟩) "nether" "IGT"
        = some 0
    ∧ getSplitMs (some ⟨[("nether", JVal.num 0)], true⟩) "nether" "IGT"
        ≠ none := by
  decide

/-- C4 amended: a stored `null` sentinel never yields a sample — a null
entry is skipped like a missing one, so whenever every candidate key that
`getSplitMs` probes for the milestone and clock is missing or holds the
`null` sentinel, the milestone resolves to absent (other milestones'
entries are irrelevant, but a numeric value under one of the probed
variant keys, e.g. `netherIgt`, does still resolve); and any value
`getSplitMs` does return is a finite, non-negative number — which
includes a stored `0`, returned as a present zero-elapsed-time sample,
not absent. -/
theorem null_sentinel_resolves_absent (w : World) (base clock : String)
    (hnull : ∀ k ∈ splitCandidateKeys base clock,
      w.data.lookup k = none ∨ w.data.lookup k = some JVal.null) :
    getSplitMs (some w) base clock = none
    ∧ ∀ (world : Option World) (v : Int),
        getSplitMs world base clock = some v → 0 ≤ v := by
  constructor
  · by_cases hc : jsToUpper clock = "IGT"
    · have hkeys : splitCandidateKeys base clock
          = [base, base ++ "Igt", toCamelCase base,
             toCamelCase base ++ "Igt"] := by
        unfold splitCandidateKeys
        rw [if_pos hc]
      simp only [getSplitMs]
      rw [if_pos hc]
      apply firstFiniteNonneg_of_invalid
      intro c hcmem
      simp only [List.mem_cons, List.not_mem_nil, or_false] at hcmem
      rcases hcmem with rfl | rfl | rfl | rfl <;>
        · apply hnull
          rw [hkeys]
          simp
    · have hkeys : splitCandidateKeys base clock
          = [base ++ "Rta", toCamelCase base ++ "Rta"] := by
        unfold splitCandidateKeys
        rw [if_neg hc]
      simp only [getSplitMs]
      rw [if_neg hc]
      apply firstFiniteNonneg_of_invalid
      intro c hcmem
      simp only [List.mem_cons, List.not_mem_nil, or_false] at hcmem
      rcases hcmem with rfl | rfl <;>
        · apply hnull
          rw [hkeys]
          simp
  · intro world v hv
    rcases world with _ | w' <;>
    · simp only [getSplitMs] at hv
      split at hv <;> exact firstFiniteNonneg_nonneg _ _ hv

/-- C4 amended witness: the snapshot `{nether: null, bastion: 120000}` —
null under the milestone's own key, a numeric value under an unrelated
milestone's key — resolves `nether` to absent. -/
theorem null_sentinel_resolves_absent_witness :
    getSplitMs (some ⟨[("nether", JVal.null),
        ("bastion", JVal.num 120000)], true⟩) "nether" "IGT"
      = none :=
  (null_sentinel_resolves_absent
    ⟨[("nether", JVal.null), ("bastion", JVal.num 120000)], true⟩ "nether"
    "IGT" (by decide)).1

/-- C5: for every configured streamer, `buildMilestones` produces a merged
rule set whose key space is exactly the union of the (fallback-resolved)
default keys and that streamer's profile keys, where every merged rule is
the field-level merge `{ ...defaultRule, ...overrideRule }`; in particular
a profile overriding only `enabled` on a milestone with a default
`thresholdSec` keeps that default `thresholdSec`. -/
theorem buildMilestones_merged_rule_sets (cfg : Config) (name : String)
    (h : name ∈ (buildMilestones cfg).STREAMERS) :
    ∃ M, ((buildMilestones cfg).STREAMER_MILESTONES).lookup name = some M
      ∧ (∀ key, (M.lookup key).isSome = true ↔
          ((((buildMilestones cfg).DEFAULT_MILESTONES).lookup key).isSome
              = true
            ∨ ((profileFor cfg name).lookup key).isSome = true))
      ∧ (∀ key rule, M.lookup key = some rule →
          rule = mergeRule
            ((((buildMilestones cfg).DEFAULT_MILESTONES).lookup
              key).getD emptyRule)
            (((profileFor cfg name).lookup key).getD emptyRule))
      ∧ (∀ key t eb e,
          ((buildMilestones cfg).DEFAULT_MILESTONES).lookup key
              = some ⟨some t, eb⟩ →
          (profileFor cfg name).lookup key = some ⟨none, some e⟩ →
          M.lookup key = some ⟨some t, some e⟩) := by
  simp only [buildMilestones] at h ⊢
  refine ⟨mergedFor (defaultMilestonesOf cfg) (profileFor cfg name),
    ?_, ?_, ?_, ?_⟩
  · rw [lookup_map_self, if_pos h]
  · intro key
    rw [mergedFor_lookup]
    by_cases hk : key ∈ (defaultMilestonesOf cfg).map Prod.fst
        ∨ key ∈ (profileFor cfg name).map Prod.fst
    · rw [if_pos hk]
      simp only [Option.isSome_some, true_iff]
      rcases hk with hk | hk
      · exact Or.inl ((lookup_isSome_iff _ _).mpr hk)
      · exact Or.inr ((lookup_isSome_iff _ _).mpr hk)
    · rw [if_neg hk]
      simp only [Option.isSome_none, Bool.false_eq_true, false_iff]
      intro hcon
      rcases hcon with hc | hc
      · exact hk (Or.inl ((lookup_isSome_iff _ _).mp hc))
      · exact hk (Or.inr ((lookup_isSome_iff _ _).mp hc))
  · intro key rule hrule
    rw [mergedFor_lookup] at hrule
    split at hrule
    · injection hrule with h'
      exact h'.symm
    · exact Option.noConfusion hrule
  · intro key t eb e hD hP
    rw [mergedFor_lookup]
    have hk : key ∈ (defaultMilestonesOf cfg).map Prod.fst :=
      (lookup_isSome_iff _ _).mp (by rw [hD]; rfl)
    rw [if_pos (Or.inl hk), hD, hP]
    rfl

/-- C5 witness: a profile-only `bastion` milestone is included, and an
`enabled`-only override on `nether` keeps the default 240s threshold. -/
theorem buildMilestones_merged_rule_sets_witness :
    ("A" ∈ (buildMilestones ⟨some ["A"],
        some [("nether", ⟨some 240, some true⟩)],
        some [("A", [("nether", ⟨none, some false⟩),
          ("bastion", ⟨some 120, some true⟩)])], .missing⟩).STREAMERS)
    ∧ ∃ M, ((buildMilestones ⟨some ["A"],
        some [("nether", ⟨some 240, some true⟩)],
        some [("A", [("nether", ⟨none, some false⟩),
          ("bastion", ⟨some 120, some true⟩)])],
        .missing⟩).STREAMER_MILESTONES).lookup "A" = some M
      ∧ M.lookup "nether" = some ⟨some 240, some false⟩
      ∧ M.lookup "bastion" = some ⟨some 120, some true⟩ := by
  refine ⟨by decide, ?_⟩
  obtain ⟨M, hM, -, -, hpart⟩ := buildMilestones_merged_rule_sets
    ⟨some ["A"], some [("nether", ⟨some 240, some true⟩)],
      some [("A", [("nether", ⟨none, some false⟩),
        ("bastion", ⟨some 120, some true⟩)])], .missing⟩ "A" (by decide)
  refine ⟨M, hM, hpart "nether" 240 (some true) false (by decide)
    (by decide), ?_⟩
  have := hM
  rw [show (buildMilestones ⟨some ["A"],
      some [("nether", ⟨some 240, some true⟩)],
      some [("A", [("nether", ⟨none, some false⟩),
        ("bastion", ⟨some 120, some true⟩)])],
      .missing⟩).STREAMER_MILESTONES
    = [("A", [("nether", ⟨some 240, some false⟩),
        ("bastion", ⟨some 120, some true⟩)])] from by decide] at this
  simp only [List.lookup] at this
  rw [show (("A" : String) == "A") = true from by decide] at this
  injection this with hMeq
  rw [← hMeq]
  decide

/-- C8: `markIfNew` returns "new" exactly when none of the provided keys is
already seen; on "new" it records exactly the provided keys on top of the
store, on "already seen" it leaves the store unchanged; and once a call
returned "new", any later call sharing one of those keys returns "already
seen". -/
theorem markIfNew_check_and_record (keys seen : List String)
    (_hne : keys ≠ []) :
    ((markIfNew keys seen).1 = true ↔ ∀ k ∈ keys, k ∉ seen) ∧
    ((markIfNew keys seen).1 = true →
      ∀ k, k ∈ (markIfNew keys seen).2 ↔ (k ∈ seen ∨ k ∈ keys)) ∧
    ((markIfNew keys seen).1 = false → (markIfNew keys seen).2 = seen) ∧
    (∀ keys' k, k ∈ keys' → k ∈ keys → (markIfNew keys seen).1 = true →
      (markIfNew keys' ((markIfNew keys seen).2)).1 = false) := by
  by_cases hany : (keys.any fun k => decide (k ∈ seen)) = true
  · have hres : markIfNew keys seen = (false, seen) := by
      unfold markIfNew
      rw [if_pos hany]
    obtain ⟨k, hk, hks⟩ := List.any_eq_true.mp hany
    have hkseen : k ∈ seen := of_decide_eq_true hks
    rw [hres]
    refine ⟨?_, ?_, fun _ => rfl, ?_⟩
    · constructor
      · intro hcon
        exact absurd hcon (by simp)
      · intro hall
        exact absurd hkseen (hall k hk)
    · intro hcon
      exact absurd hcon (by simp)
    · intro keys' k' _ _ hcon
      exact absurd hcon (by simp)
  · have hres : markIfNew keys seen = (true, keys.foldl setAdd seen) := by
      unfold markIfNew
      rw [if_neg hany]
    rw [hres]
    refine ⟨?_, ?_, ?_, ?_⟩
    · constructor
      · intro _ k hk hkseen
        exact hany (List.any_eq_true.mpr ⟨k, hk, decide_eq_true hkseen⟩)
      · intro _
        rfl
    · intro _ k
      exact mem_foldl_setAdd keys seen k
    · intro hcon
      exact absurd hcon (by simp)
    · intro keys' k hk' hk _
      unfold markIfNew
      rw [if_pos (List.any_eq_true.mpr ⟨k, hk',
        decide_eq_true ((mem_foldl_setAdd keys seen k).mpr (Or.inr hk))⟩)]

/-- C8 witness: `["a", "b"]` against the empty store is new; a repeat of
`["a"]` is no longer new. -/
theorem markIfNew_check_and_record_witness :
    (markIfNew ["a", "b"] []).1 = true
    ∧ (markIfNew ["a"] ((markIfNew ["a", "b"] []).2)).1 = false := by
  have h := markIfNew_check_and_record ["a", "b"] [] (by decide)
  exact ⟨(h.1).mpr (by decide),
    h.2.2.2 ["a"] "a" (by decide) (by decide) ((h.1).mpr (by decide))⟩

/-- C9: when an `alertOnce` call's delivery is suppressed by quiet hours
(status `quiet`), its dedupe keys were nevertheless recorded; any later
`alertOnce` call for the same (milestone, streamer, run) triple — under any
flags, configuration, time, clock, and split — returns early with no
delivery status and an unchanged store; and no `alertOnce` call ever
removes a recorded key, so the suppressed notification is never delivered
later. -/
theorem quiet_suppression_consumes_dedupe (dryRun overrideQuiet : Bool)
    (cfg : Config) (nowMinutes : Nat)
    (streamer runId milestone usedClock : String) (splitMs : Int)
    (seen : List String)
    (hq : (alertOnce dryRun overrideQuiet cfg nowMinutes streamer runId
        milestone usedClock splitMs seen).status = some .quiet) :
    (alertKey milestone streamer runId
        ∈ (alertOnce dryRun overrideQuiet cfg nowMinutes streamer runId
            milestone usedClock splitMs seen).seen
      ∧ alertLegacyKey milestone usedClock streamer runId splitMs
        ∈ (alertOnce dryRun overrideQuiet cfg nowMinutes streamer runId
            milestone usedClock splitMs seen).seen) ∧
    (∀ (dryRun' overrideQuiet' : Bool) (cfg' : Config) (now' : Nat)
        (usedClock' : String) (splitMs' : Int) (seen' : List String),
      alertKey milestone streamer runId ∈ seen' →
      (alertOnce dryRun' overrideQuiet' cfg' now' streamer runId milestone
          usedClock' splitMs' seen').status = none
        ∧ (alertOnce dryRun' overrideQuiet' cfg' now' streamer runId
            milestone usedClock' splitMs' seen').seen = seen') ∧
    (∀ (dryRun' overrideQuiet' : Bool) (cfg' : Config) (now' : Nat)
        (streamer' runId' milestone' usedClock' : String) (splitMs' : Int)
        (seen' : List String) (k : String), k ∈ seen' →
      k ∈ (alertOnce dryRun' overrideQuiet' cfg' now' streamer' runId'
          milestone' usedClock' splitMs' seen').seen) := by
  refine ⟨?_, ?_, ?_⟩
  · rcases markIfNew_eq_cases [alertKey milestone streamer runId,
        alertLegacyKey milestone usedClock streamer runId splitMs] seen
        with hm | hm
    · unfold alertOnce at hq
      rw [hm] at hq
      exact absurd hq (by simp)
    · unfold alertOnce
      rw [hm]
      simp only [if_true]
      constructor
      · exact (mem_foldl_setAdd _ _ _).mpr (Or.inr (by simp))
      · exact (mem_foldl_setAdd _ _ _).mpr (Or.inr (by simp))
  · intro dryRun' overrideQuiet' cfg' now' usedClock' splitMs' seen' hmem
    have hm := markIfNew_false_of_mem [alertKey milestone streamer runId,
        alertLegacyKey milestone usedClock' streamer runId splitMs'] seen'
      (alertKey milestone streamer runId) (by simp) hmem
    unfold alertOnce
    rw [hm]
    exact ⟨rfl, rfl⟩
  · intro dryRun' overrideQuiet' cfg' now' streamer' runId' milestone'
      usedClock' splitMs' seen' k hk
    rcases markIfNew_eq_cases [alertKey milestone' streamer' runId',
        alertLegacyKey milestone' usedClock' streamer' runId' splitMs'] seen'
        with hm | hm
    · unfold alertOnce
      rw [hm]
      exact hk
    · unfold alertOnce
      rw [hm]
      simp only [if_true]
      exact (mem_foldl_setAdd _ _ _).mpr (Or.inl hk)

/-- C9 witness: a nether alert at 23:30 under quiet hours `23:00-02:00`
reports `quiet`, and its conclusions hold at that concrete call. -/
theorem quiet_suppression_consumes_dedupe_witness :
    (alertOnce false false ⟨none, none, none, .multi ["23:00-02:00"]⟩ 1410
        "S" "1" "nether" "IGT" 179852 []).status = some .quiet
    ∧ (alertOnce false false ⟨none, none, none, .multi ["23:00-02:00"]⟩ 1410
        "S" "1" "nether" "IGT" 179852 []).seen
      = ["nether|S|1", "nether|IGT|S|1|179"]
    ∧ (alertOnce true true ⟨none, none, none, .missing⟩ 0 "S" "1" "nether"
        "RTA" 185000 ["nether|S|1", "nether|IGT|S|1|179"]).status = none := by
  refine ⟨by decide, by decide, ?_⟩
  have h := quiet_suppression_consumes_dedupe false false
    ⟨none, none, none, .multi ["23:00-02:00"]⟩ 1410 "S" "1" "nether" "IGT"
    179852 [] (by decide)
  exact (h.2.1 true true ⟨none, none, none, .missing⟩ 0 "RTA" 185000
    ["nether|S|1", "nether|IGT|S|1|179"] (by decide)).1

end RunAlert
